import Mathlib

/-!
Shallow embedding of `src/app.py` (HSK-Quiz-Gen): the pydantic data model
(`QuizQuestion`, `QuizData` with their field validators), the per-image
extraction wrapper `generate_single_quiz`, the multi-image merge
`generate_quiz_from_images`, and the answer-checking / scoring fragments of
the Streamlit UI.

The external LLM call is modelled by its outcome: an `Except String QuizData`
per image (`.ok` = a schema-validated quiz, `.error e` = the call raised the
exception `e`).  Python `str.strip` / `str.lower` are modelled by `pyStrip` /
`pyLower` below.  Python exceptions are modelled by `Except String`.
-/

/-- Python whitespace as used by `str.strip` (ASCII whitespace). -/
def pyIsSpace (c : Char) : Bool :=
  c = ' ' || c = '\t' || c = '\n' || c = '\r' || c = '\x0b' || c = '\x0c'

/-- Strip leading and trailing whitespace from a character list. -/
def stripChars (l : List Char) : List Char :=
  ((l.dropWhile pyIsSpace).reverse.dropWhile pyIsSpace).reverse

/-- Model of Python `str.strip()`. -/
def pyStrip (s : String) : String := ⟨stripChars s.data⟩

/-- Model of Python `str.lower()` (per-character lowering). -/
def pyLower (s : String) : String := ⟨s.data.map Char.toLower⟩

/-- `QuizQuestion` (src/app.py lines 39-64): one quiz question record.
Optional pydantic fields carry their declared defaults. -/
structure QuizQuestion where
  id : Int
  type : String
  question : String
  chinese_word : String
  pinyin : String
  meaning : String
  wrong_meanings : List String := []
  explanation : String := ""
  context_sentence : String := ""
  options : List String := []
  correct_answer : String := ""
  hsk_level : Int := 4
  dialogue_parts : List String := []
  correct_order : List Int := []
  reading_text : String := ""
  subquestions : List String := []
  subanswers : List String := []
  suboptions : List (List String) := []
  deriving DecidableEq, Repr

/-- Validator `question_must_not_be_empty` (lines 66-70).  Python tests
`not v or not v.strip()`; `v = ""` implies `pyStrip v = ""`, so the test is
exactly `pyStrip v = ""`.  On success the stripped value is stored. -/
def question_must_not_be_empty (v : String) : Except String String :=
  if pyStrip v = "" then .error "Question text cannot be empty" else .ok (pyStrip v)

/-- Validator `chinese_word_must_not_be_empty` (lines 72-76). -/
def chinese_word_must_not_be_empty (v : String) : Except String String :=
  if pyStrip v = "" then .error "Chinese word cannot be empty" else .ok (pyStrip v)

/-- Validator `pinyin_must_not_be_empty` (lines 78-82). -/
def pinyin_must_not_be_empty (v : String) : Except String String :=
  if pyStrip v = "" then .error "Pinyin cannot be empty" else .ok (pyStrip v)

/-- Validator `meaning_must_not_be_empty` (lines 84-88). -/
def meaning_must_not_be_empty (v : String) : Except String String :=
  if pyStrip v = "" then .error "Meaning cannot be empty" else .ok (pyStrip v)

/-- Loop body of `validate_wrong_meanings` (lines 90-100): `cleaned` is the
accumulated output, `seen` the set of already-seen lowercased entries. -/
def vwmGo (cleaned : List String) (seen : List String) : List String → List String
  | [] => cleaned
  | m :: rest =>
    let meaning_clean := pyStrip m
    if meaning_clean ≠ "" ∧ pyLower meaning_clean ∉ seen then
      vwmGo (cleaned ++ [meaning_clean]) (pyLower meaning_clean :: seen) rest
    else
      vwmGo cleaned seen rest

/-- Validator `validate_wrong_meanings` (lines 90-100): strip entries, drop
empty ones and case-insensitive duplicates, keeping first occurrences. -/
def validate_wrong_meanings (v : List String) : List String := vwmGo [] [] v

/-- Pydantic construction of a `QuizQuestion`: run every field validator;
any failure is a validation error (lines 39-100). -/
def QuizQuestion.validate (q : QuizQuestion) : Except String QuizQuestion := do
  let question ← question_must_not_be_empty q.question
  let chinese_word ← chinese_word_must_not_be_empty q.chinese_word
  let pinyin ← pinyin_must_not_be_empty q.pinyin
  let meaning ← meaning_must_not_be_empty q.meaning
  .ok { q with question := question, chinese_word := chinese_word, pinyin := pinyin,
               meaning := meaning,
               wrong_meanings := validate_wrong_meanings q.wrong_meanings }

/-- `QuizData` (lines 123-140): a titled list of questions. -/
structure QuizData where
  questions : List QuizQuestion
  title : String := "Quiz"
  deriving DecidableEq, Repr

/-- Validator `must_have_questions` (lines 127-131): Python `if not v`. -/
def must_have_questions (v : List QuizQuestion) : Except String (List QuizQuestion) :=
  if v = [] then .error "Quiz must have at least one question" else .ok v

/-- Pydantic construction of a `QuizData` (lines 123-131). -/
def QuizData.make (questions : List QuizQuestion) (title : String) : Except String QuizData := do
  let qs ← must_have_questions questions
  .ok { questions := qs, title := title }

/-- `QuizData.get_question` (lines 136-140): bounds-checked lookup, `None`
out of range.  The Python index is an `int`, so the model takes `Int`. -/
def QuizData.get_question (quiz : QuizData) (index : Int) : Option QuizQuestion :=
  if h : 0 ≤ index ∧ index < (quiz.questions.length : Int) then
    some (quiz.questions.get ⟨index.toNat, by omega⟩)
  else none

/-- `generate_single_quiz` (lines 143-248).  The LLM round-trip for one image
is abstracted by its outcome; on an exception `e` the function builds the
placeholder error quiz through the pydantic constructors (any validation
failure there would propagate, as in Python). -/
def generate_single_quiz (outcome : Except String QuizData) (image_index : Nat) :
    Except String (QuizData × Nat × Option String) :=
  match outcome with
  | .ok quiz_data => .ok (quiz_data, image_index, none)
  | .error e => do
      let error_question ← QuizQuestion.validate
        { id := 1, type := "error",
          question := "Lỗi khi tạo quiz từ ảnh " ++ toString (image_index + 1) ++ ": " ++ e,
          chinese_word := "N/A", pinyin := "N/A", meaning := "N/A", wrong_meanings := [] }
      let error_quiz ← QuizData.make [error_question] ("Lỗi - Ảnh " ++ toString (image_index + 1))
      .ok (error_quiz, image_index, some e)

/-- The error question `generate_single_quiz` builds for a failed image,
after its validators ran (the stored `question` text is the stripped
f-string carrying the stringified exception). -/
def errorQuestion (e : String) (image_index : Nat) : QuizQuestion :=
  { id := 1, type := "error",
    question := pyStrip ("Lỗi khi tạo quiz từ ảnh " ++ toString (image_index + 1) ++ ": " ++ e),
    chinese_word := "N/A", pinyin := "N/A", meaning := "N/A", wrong_meanings := [] }

/-- The placeholder quiz `generate_single_quiz` returns for a failed image. -/
def errorQuiz (e : String) (image_index : Nat) : QuizData :=
  { questions := [errorQuestion e image_index],
    title := "Lỗi - Ảnh " ++ toString (image_index + 1) }

/-- The value `generate_single_quiz` always returns (proved below): the
extracted quiz on success, the placeholder error quiz on failure. -/
def singleResult (outcome : Except String QuizData) (image_index : Nat) :
    QuizData × Nat × Option String :=
  match outcome with
  | .ok quiz_data => (quiz_data, image_index, none)
  | .error e => (errorQuiz e image_index, image_index, some e)

/-- `common_wrong_options` (lines 298-303). -/
def common_wrong_options : List String :=
  ["học sinh", "giáo viên", "bạn bè", "gia đình", "cuộc sống",
   "công việc", "thời gian", "nhà cửa", "tình yêu", "thức ăn",
   "nước uống", "sức khỏe", "tiền bạc", "giao thông", "du lịch",
   "đi lại", "ngôn ngữ", "học tập", "tình cảm", "hạnh phúc"]

/-- `generic_wrong` (line 330). -/
def generic_wrong : List String :=
  ["từ khác", "nghĩa khác", "không có nghĩa này", "nghĩa sai"]

/-- Merge-time filter over one question's `wrong_meanings` (lines 288-292):
drop entries colliding (case-insensitively) with the running used-set or with
the question's own meaning; record kept entries in the used-set. -/
def filterWrongGo (meaning : String) (filtered used : List String) :
    List String → List String × List String
  | [] => (filtered, used)
  | m :: rest =>
    if pyLower m ∉ used ∧ pyLower m ≠ pyLower meaning then
      filterWrongGo meaning (filtered ++ [m]) (pyLower m :: used) rest
    else
      filterWrongGo meaning filtered used rest

/-- Merge-time backfill from `common_wrong_options` (lines 294-313): add
non-colliding common options until the question has at least 3 distractors. -/
def backfillGo (meaning : String) (filtered used : List String) :
    List String → List String × List String
  | [] => (filtered, used)
  | c :: rest =>
    if filtered.length ≥ 3 then (filtered, used)
    else if pyLower c ∉ used ∧ pyLower c ≠ pyLower meaning ∧ c ∉ filtered then
      backfillGo meaning (filtered ++ [c]) (pyLower c :: used) rest
    else
      backfillGo meaning filtered used rest

/-- Per-question body of the merge loop (lines 286-320): filter and backfill
`wrong_meanings`, then overwrite the id with the running counter. -/
def mergeQuestion (used : List String) (question_id : Int) (q : QuizQuestion) :
    QuizQuestion × List String :=
  let fu := filterWrongGo q.meaning [] used q.wrong_meanings
  let fu2 := if fu.1.length < 3 then backfillGo q.meaning fu.1 fu.2 common_wrong_options else fu
  ({ q with wrong_meanings := fu2.1, id := question_id }, fu2.2)

/-- Inner merge loop over one sub-quiz's questions (lines 286-320). -/
def mergeQuestions (used : List String) (question_id : Int) :
    List QuizQuestion → List QuizQuestion × List String
  | [] => ([], used)
  | q :: rest =>
    let p := mergeQuestion used question_id q
    let r := mergeQuestions p.2 (question_id + 1) rest
    (p.1 :: r.1, r.2)

/-- Outer merge loop over the per-image sub-quizzes (lines 284-320). -/
def mergeQuizzes (used : List String) (question_id : Int) :
    List QuizData → List QuizQuestion × List String
  | [] => ([], used)
  | qz :: rest =>
    let p := mergeQuestions used question_id qz.questions
    let r := mergeQuizzes p.2 (question_id + qz.questions.length) rest
    (p.1 ++ r.1, r.2)

/-- Final-pass backfill from `generic_wrong` (lines 330-335). -/
def finalBackfillGo (meaning : String) (wrong_meanings : List String) :
    List String → List String
  | [] => wrong_meanings
  | w :: rest =>
    if wrong_meanings.length ≥ 3 then wrong_meanings
    else if pyLower w ∉ wrong_meanings.map pyLower ∧ pyLower w ≠ pyLower meaning then
      finalBackfillGo meaning (wrong_meanings ++ [w]) rest
    else
      finalBackfillGo meaning wrong_meanings rest

/-- Final check over the combined questions (lines 326-335): guarantee at
least 3 distractors for every `chinese_to_pinyin_meaning` question. -/
def finalCheck (q : QuizQuestion) : QuizQuestion :=
  if q.type = "chinese_to_pinyin_meaning" ∧ q.wrong_meanings.length < 3 then
    { q with wrong_meanings := finalBackfillGo q.meaning q.wrong_meanings generic_wrong }
  else q

/-- Combined title (lines 322-324). -/
def combinedTitle (num_images : Nat) (titles : List String) : String :=
  let base := "Quiz tổng hợp từ " ++ toString num_images ++ " ảnh: "
      ++ String.intercalate ", " (titles.take 3)
  if titles.length > 3 then
    base ++ " và " ++ toString (titles.length - 3) ++ " ảnh khác"
  else base

/-- One `generate_single_quiz` call per image, indexed by `enumerate`
position, results reassembled in original image order (lines 256-271: the
worker pool writes `results[image_index]`, which is then read back for
`i in range(len(image_files))`, so completion order is irrelevant).  A raised
exception inside a worker would resurface at `future.result()`, hence the
`Except` threading. -/
def runSingleQuizzes (start : Nat) :
    List (Except String QuizData) → Except String (List (QuizData × Nat × Option String))
  | [] => .ok []
  | o :: rest => do
    let r ← generate_single_quiz o start
    let rs ← runSingleQuizzes (start + 1) rest
    .ok (r :: rs)

/-- `generate_quiz_from_images` (lines 251-337). -/
def generate_quiz_from_images (outcomes : List (Except String QuizData)) :
    Except String (Option QuizData) :=
  if outcomes.isEmpty then .ok none
  else do
    let results ← runSingleQuizzes 0 outcomes
    let all_quiz_data := results.map (fun r => r.1)
    if all_quiz_data.isEmpty then .ok none
    else
      let merged := mergeQuizzes [] 1 all_quiz_data
      let titles := all_quiz_data.map (fun qz => qz.title)
      let combined_title := combinedTitle outcomes.length titles
      let final_questions := merged.1.map finalCheck
      match QuizData.make final_questions combined_title with
      | .ok qd => .ok (some qd)
      | .error msg => .error msg

/-- The per-image sub-quizzes the merge concatenates, in original image
order (the first components of the `generate_single_quiz` results),
starting from image index `start`. -/
def perImageFrom (start : Nat) : List (Except String QuizData) → List QuizData
  | [] => []
  | o :: rest => (singleResult o start).1 :: perImageFrom (start + 1) rest

/-- The per-image sub-quizzes of a whole generation run. -/
def perImageQuizzes (outcomes : List (Except String QuizData)) : List QuizData :=
  perImageFrom 0 outcomes

/-- Session scoring state (`st.session_state.score` /
`st.session_state.answered_questions`, lines 707-709). -/
structure SessionState where
  score : Nat
  answered_questions : List Nat
  deriving DecidableEq, Repr

/-- Score update after displaying a question (lines 760-766): increment and
mark answered only on a correct answer to a not-yet-answered question. -/
def updateScore (s : SessionState) (current_q_idx : Nat) (is_correct : Bool) : SessionState :=
  if is_correct ∧ current_q_idx ∉ s.answered_questions then
    { score := s.score + 1, answered_questions := current_q_idx :: s.answered_questions }
  else s

/-- Correctness check of `display_dialogue_arrangement_question` (lines
553-558): the user-built order is compared to `correct_order` by list
equality. -/
def check_dialogue_arrangement (question : QuizQuestion) (user_order : List Int) : Bool :=
  user_order == question.correct_order

/-- Correctness check of `display_reading_comprehension_question` (lines
590-626): per-subquestion exact match over `zip user_answers subanswers`,
aggregated into the all-or-nothing `all_correct` flag.  Returns the
per-subquestion results and the aggregate. -/
def check_reading_comprehension (question : QuizQuestion) (user_answers : List String) :
    List Bool × Bool :=
  let sub_results := (user_answers.zip question.subanswers).map (fun p => p.1 == p.2)
  (sub_results, sub_results.all (fun b => b))

/-- Case-insensitive inequality: the relation distinct `wrong_meanings`
entries must pairwise satisfy. -/
def lowNe (a b : String) : Prop := pyLower a ≠ pyLower b

instance lowNeDecidable : DecidableRel lowNe :=
  fun a b => inferInstanceAs (Decidable (pyLower a ≠ pyLower b))

/-- The invariant the merge establishes on every question: distractors are
pairwise case-insensitively distinct and never equal the correct meaning. -/
def InvQ (q : QuizQuestion) : Prop :=
  q.wrong_meanings.Pairwise lowNe ∧
  ∀ x ∈ q.wrong_meanings, pyLower x ≠ pyLower q.meaning

/-- A question with the two merge-rewritten fields (`id`, `wrong_meanings`)
blanked out: equality under `coreFields` says the merge kept the question. -/
def coreFields (q : QuizQuestion) : QuizQuestion :=
  { q with id := 0, wrong_meanings := [] }

/-- `[start, start+1, ..., start+n-1]`: a contiguous ascending id block. -/
def idsFrom (start : Int) : Nat → List Int
  | 0 => []
  | n + 1 => start :: idsFrom (start + 1) n

/-- Concrete sample question for witnesses. -/
def sampleQuestion : QuizQuestion :=
  { id := 7, type := "chinese_to_pinyin_meaning", question := "Pinyin?",
    chinese_word := "猫", pinyin := "māo", meaning := "mèo",
    wrong_meanings := ["chó", "gà"] }

/-- Concrete sample quiz for witnesses. -/
def sampleQuiz : QuizData := { questions := [sampleQuestion], title := "T" }

/-- The question `generate_quiz_from_images [Except.ok sampleQuiz]`
produces: renumbered to id 1, distractors backfilled to three. -/
def sampleMergedQuestion : QuizQuestion :=
  { sampleQuestion with
    id := 1,
    wrong_meanings := ["chó", "gà", "học sinh"] }

/-- The quiz `generate_quiz_from_images [Except.ok sampleQuiz]` produces. -/
def sampleMerged : QuizData :=
  { questions := [sampleMergedQuestion], title := "Quiz tổng hợp từ 1 ảnh: T" }

/-- A question whose `pinyin` is whitespace-only (for the validation
witness). -/
def badQuestion : QuizQuestion :=
  { id := 1, type := "chinese_to_pinyin_meaning", question := "Q",
    chinese_word := "字", pinyin := "  ", meaning := "m" }

/-! ### String-level helper lemmas -/

/-- If `stripChars` empties a list, every character was whitespace. -/
theorem stripChars_eq_nil {l : List Char} (h : stripChars l = []) :
    ∀ c ∈ l, pyIsSpace c = true := by
  intro c hc
  unfold stripChars at h
  rw [List.reverse_eq_nil_iff, List.dropWhile_eq_nil_iff] at h
  have hdrop : ∀ x ∈ l.dropWhile pyIsSpace, pyIsSpace x = true := by
    intro x hx
    exact h x (List.mem_reverse.mpr hx)
  have hsplit := List.takeWhile_append_dropWhile pyIsSpace l
  rw [← hsplit] at hc
  rcases List.mem_append.mp hc with htake | hdr
  · exact List.mem_takeWhile_imp htake
  · exact hdrop c hdr

/-- A string containing a non-whitespace character does not strip to "". -/
theorem pyStrip_ne_empty (c : Char) {s : String} (hc : c ∈ s.data)
    (hns : pyIsSpace c = false) : pyStrip s ≠ "" := by
  intro h
  have hd : stripChars s.data = [] := congrArg String.data h
  have := stripChars_eq_nil hd c hc
  rw [hns] at this
  cases this

/-- The error-question text built by `generate_single_quiz` never strips
to the empty string (it starts with the non-blank letter `L`). -/
theorem errorMsg_strip_ne_empty (n e : String) :
    pyStrip ("Lỗi khi tạo quiz từ ảnh " ++ n ++ ": " ++ e) ≠ "" := by
  apply pyStrip_ne_empty 'L'
  · have hdata : ("Lỗi khi tạo quiz từ ảnh " ++ n ++ ": " ++ e).data
        = (("Lỗi khi tạo quiz từ ảnh ".data ++ n.data) ++ ": ".data) ++ e.data := by
      simp [String.data_append]
    rw [hdata]
    apply List.mem_append_left
    apply List.mem_append_left
    apply List.mem_append_left
    decide
  · decide

/-- `generate_single_quiz` never propagates the failure: it always succeeds,
returning the extracted quiz or the placeholder error quiz. -/
theorem generate_single_quiz_eq (outcome : Except String QuizData) (image_index : Nat) :
    generate_single_quiz outcome image_index = .ok (singleResult outcome image_index) := by
  cases outcome with
  | ok q => rfl
  | error e =>
    have h1 := errorMsg_strip_ne_empty (toString (image_index + 1)) e
    have hNA : pyStrip "N/A" = "N/A" := by decide
    have hNAne : pyStrip "N/A" ≠ "" := by decide
    simp only [generate_single_quiz, singleResult, QuizQuestion.validate,
      question_must_not_be_empty, chinese_word_must_not_be_empty,
      pinyin_must_not_be_empty, meaning_must_not_be_empty,
      QuizData.make, must_have_questions, errorQuiz, errorQuestion,
      validate_wrong_meanings, vwmGo,
      if_neg h1, if_neg hNAne, hNA, Except.bind, bind, Except.ok.injEq]
    constructor

/-! ### Invariants of the merge-time distractor filtering -/

/-- The merge filter keeps `wrong_meanings` pairwise case-insensitively
distinct, recorded in the used-set, and distinct from the meaning. -/
theorem filterWrongGo_inv (meaning : String) (l : List String) :
    ∀ filtered used,
      filtered.Pairwise lowNe →
      (∀ x ∈ filtered, pyLower x ∈ used) →
      (∀ x ∈ filtered, pyLower x ≠ pyLower meaning) →
      ((filterWrongGo meaning filtered used l).1.Pairwise lowNe ∧
       (∀ x ∈ (filterWrongGo meaning filtered used l).1,
          pyLower x ∈ (filterWrongGo meaning filtered used l).2) ∧
       (∀ x ∈ (filterWrongGo meaning filtered used l).1, pyLower x ≠ pyLower meaning)) := by
  induction l with
  | nil =>
    intro filtered used h1 h2 h3
    exact ⟨h1, h2, h3⟩
  | cons m rest ih =>
    intro filtered used h1 h2 h3
    by_cases hc : pyLower m ∉ used ∧ pyLower m ≠ pyLower meaning
    · have heq : filterWrongGo meaning filtered used (m :: rest)
          = filterWrongGo meaning (filtered ++ [m]) (pyLower m :: used) rest := by
        simp only [filterWrongGo, if_pos hc]
      rw [heq]
      apply ih
      · rw [List.pairwise_append]
        refine ⟨h1, List.pairwise_singleton _ _, ?_⟩
        intro a ha b hb
        rw [List.mem_singleton] at hb
        subst hb
        intro hab
        exact hc.1 (hab ▸ h2 a ha)
      · intro x hx
        rcases List.mem_append.mp hx with h | h
        · exact List.mem_cons_of_mem _ (h2 x h)
        · rw [List.mem_singleton] at h; subst h; exact List.mem_cons_self _ _
      · intro x hx
        rcases List.mem_append.mp hx with h | h
        · exact h3 x h
        · rw [List.mem_singleton] at h; subst h; exact hc.2
    · have heq : filterWrongGo meaning filtered used (m :: rest)
          = filterWrongGo meaning filtered used rest := by
        simp only [filterWrongGo, if_neg hc]
      rw [heq]
      exact ih filtered used h1 h2 h3

/-- The common-options backfill keeps the same invariant. -/
theorem backfillGo_inv (meaning : String) (l : List String) :
    ∀ filtered used,
      filtered.Pairwise lowNe →
      (∀ x ∈ filtered, pyLower x ∈ used) →
      (∀ x ∈ filtered, pyLower x ≠ pyLower meaning) →
      ((backfillGo meaning filtered used l).1.Pairwise lowNe ∧
       (∀ x ∈ (backfillGo meaning filtered used l).1,
          pyLower x ∈ (backfillGo meaning filtered used l).2) ∧
       (∀ x ∈ (backfillGo meaning filtered used l).1, pyLower x ≠ pyLower meaning)) := by
  induction l with
  | nil =>
    intro filtered used h1 h2 h3
    exact ⟨h1, h2, h3⟩
  | cons c rest ih =>
    intro filtered used h1 h2 h3
    by_cases h3le : filtered.length ≥ 3
    · have heq : backfillGo meaning filtered used (c :: rest) = (filtered, used) := by
        simp only [backfillGo, if_pos h3le]
      rw [heq]
      exact ⟨h1, h2, h3⟩
    · by_cases hc : pyLower c ∉ used ∧ pyLower c ≠ pyLower meaning ∧ c ∉ filtered
      · have heq : backfillGo meaning filtered used (c :: rest)
            = backfillGo meaning (filtered ++ [c]) (pyLower c :: used) rest := by
          simp only [backfillGo, if_neg h3le, if_pos hc]
        rw [heq]
        apply ih
        · rw [List.pairwise_append]
          refine ⟨h1, List.pairwise_singleton _ _, ?_⟩
          intro a ha b hb
          rw [List.mem_singleton] at hb
          subst hb
          intro hab
          exact hc.1 (hab ▸ h2 a ha)
        · intro x hx
          rcases List.mem_append.mp hx with h | h
          · exact List.mem_cons_of_mem _ (h2 x h)
          · rw [List.mem_singleton] at h; subst h; exact List.mem_cons_self _ _
        · intro x hx
          rcases List.mem_append.mp hx with h | h
          · exact h3 x h
          · rw [List.mem_singleton] at h; subst h; exact hc.2.1
      · have heq : backfillGo meaning filtered used (c :: rest)
            = backfillGo meaning filtered used rest := by
          simp only [backfillGo, if_neg h3le, if_neg hc]
        rw [heq]
        exact ih filtered used h1 h2 h3

/-- The final generic backfill keeps distractors pairwise distinct and
distinct from the meaning. -/
theorem finalBackfillGo_inv (meaning : String) (pool : List String) :
    ∀ wm, wm.Pairwise lowNe → (∀ x ∈ wm, pyLower x ≠ pyLower meaning) →
      ((finalBackfillGo meaning wm pool).Pairwise lowNe ∧
       (∀ x ∈ finalBackfillGo meaning wm pool, pyLower x ≠ pyLower meaning)) := by
  induction pool with
  | nil =>
    intro wm h1 h2
    exact ⟨h1, h2⟩
  | cons w rest ih =>
    intro wm h1 h2
    by_cases h3le : wm.length ≥ 3
    · have heq : finalBackfillGo meaning wm (w :: rest) = wm := by
        simp only [finalBackfillGo, if_pos h3le]
      rw [heq]
      exact ⟨h1, h2⟩
    · by_cases hc : pyLower w ∉ wm.map pyLower ∧ pyLower w ≠ pyLower meaning
      · have heq : finalBackfillGo meaning wm (w :: rest)
            = finalBackfillGo meaning (wm ++ [w]) rest := by
          simp only [finalBackfillGo, if_neg h3le, if_pos hc]
        rw [heq]
        apply ih
        · rw [List.pairwise_append]
          refine ⟨h1, List.pairwise_singleton _ _, ?_⟩
          intro a ha b hb
          rw [List.mem_singleton] at hb
          subst hb
          intro hab
          exact hc.1 (hab ▸ List.mem_map_of_mem pyLower ha)
        · intro x hx
          rcases List.mem_append.mp hx with h | h
          · exact h2 x h
          · rw [List.mem_singleton] at h; subst h; exact hc.2
      · have heq : finalBackfillGo meaning wm (w :: rest)
            = finalBackfillGo meaning wm rest := by
          simp only [finalBackfillGo, if_neg h3le, if_neg hc]
        rw [heq]
        exact ih wm h1 h2

/-- The final backfill reaches 3 distractors whenever the available (still
non-colliding) part of the pool is large enough.  The pool is assumed
pairwise case-insensitively distinct, so accepted pool entries never block
later ones. -/
theorem finalBackfillGo_length (meaning : String) (pool : List String) :
    ∀ wm, pool.Pairwise lowNe → wm.Pairwise lowNe →
      (∀ x ∈ wm, pyLower x ≠ pyLower meaning) →
      3 ≤ wm.length + (pool.filter (fun w =>
            decide (pyLower w ∉ wm.map pyLower ∧ pyLower w ≠ pyLower meaning))).length →
      3 ≤ (finalBackfillGo meaning wm pool).length := by
  induction pool with
  | nil =>
    intro wm _ _ _ hlen
    simpa using hlen
  | cons w rest ih =>
    intro wm hpool hwm hne hlen
    rw [List.pairwise_cons] at hpool
    by_cases h3le : wm.length ≥ 3
    · have heq : finalBackfillGo meaning wm (w :: rest) = wm := by
        simp only [finalBackfillGo, if_pos h3le]
      rw [heq]
      exact h3le
    · by_cases hc : pyLower w ∉ wm.map pyLower ∧ pyLower w ≠ pyLower meaning
      · have heq : finalBackfillGo meaning wm (w :: rest)
            = finalBackfillGo meaning (wm ++ [w]) rest := by
          simp only [finalBackfillGo, if_neg h3le, if_pos hc]
        rw [heq]
        apply ih (wm ++ [w]) hpool.2
        · rw [List.pairwise_append]
          refine ⟨hwm, List.pairwise_singleton _ _, ?_⟩
          intro a ha b hb
          rw [List.mem_singleton] at hb
          subst hb
          intro hab
          exact hc.1 (hab ▸ List.mem_map_of_mem pyLower ha)
        · intro x hx
          rcases List.mem_append.mp hx with h | h
          · exact hne x h
          · rw [List.mem_singleton] at h; subst h; exact hc.2
        · have hfeq : rest.filter (fun x =>
                decide (pyLower x ∉ (wm ++ [w]).map pyLower ∧ pyLower x ≠ pyLower meaning))
              = rest.filter (fun x =>
                decide (pyLower x ∉ wm.map pyLower ∧ pyLower x ≠ pyLower meaning)) := by
            apply List.filter_congr
            intro x hx
            have hxw : pyLower x ≠ pyLower w := fun h => (hpool.1 x hx) h.symm
            apply decide_eq_decide.mpr
            rw [List.map_append, List.map_singleton]
            constructor
            · intro hp
              exact ⟨fun hmem => hp.1 (List.mem_append_left _ hmem), hp.2⟩
            · intro hp
              refine ⟨fun hmem => ?_, hp.2⟩
              rcases List.mem_append.mp hmem with h | h
              · exact hp.1 h
              · rw [List.mem_singleton] at h; exact hxw h
          rw [hfeq]
          have hcons : (w :: rest).filter (fun x =>
                decide (pyLower x ∉ wm.map pyLower ∧ pyLower x ≠ pyLower meaning))
              = w :: rest.filter (fun x =>
                decide (pyLower x ∉ wm.map pyLower ∧ pyLower x ≠ pyLower meaning)) := by
            rw [List.filter_cons_of_pos]
            exact decide_eq_true hc
          rw [hcons] at hlen
          simp only [List.length_append, List.length_cons, List.length_singleton] at *
          omega
      · have heq : finalBackfillGo meaning wm (w :: rest)
            = finalBackfillGo meaning wm rest := by
          simp only [finalBackfillGo, if_neg h3le, if_neg hc]
        rw [heq]
        apply ih wm hpool.2 hwm hne
        have hcons : (w :: rest).filter (fun x =>
              decide (pyLower x ∉ wm.map pyLower ∧ pyLower x ≠ pyLower meaning))
            = rest.filter (fun x =>
              decide (pyLower x ∉ wm.map pyLower ∧ pyLower x ≠ pyLower meaning)) := by
          rw [List.filter_cons_of_neg]
          simpa using hc
        rw [hcons] at hlen
        exact hlen

/-- Among the four generic fallback distractors, enough survive any
admissible collision set: at most `wm.length` collide with existing entries
and at most one with the meaning. -/
theorem generic_filter_bound (meaning : String) (wm : List String) :
    3 ≤ wm.length + (generic_wrong.filter (fun w =>
        decide (pyLower w ∉ wm.map pyLower ∧ pyLower w ≠ pyLower meaning))).length := by
  have hgen : generic_wrong.Pairwise lowNe := by decide
  have hsum := generic_wrong.length_eq_length_filter_add (fun w =>
      decide (pyLower w ∉ wm.map pyLower ∧ pyLower w ≠ pyLower meaning))
  have hlen4 : generic_wrong.length = 4 := rfl
  -- bound the rejected entries: their lowerings are distinct and all lie in
  -- `wm.map pyLower ++ [pyLower meaning]`
  have hrejected : ((generic_wrong.filter (fun w =>
      !decide (pyLower w ∉ wm.map pyLower ∧ pyLower w ≠ pyLower meaning))).map pyLower).length
        ≤ (wm.map pyLower ++ [pyLower meaning]).length := by
    apply List.Subperm.length_le
    apply List.Nodup.subperm
    · apply List.Pairwise.map pyLower (fun a b h => h)
      exact List.Pairwise.filter _ hgen
    · intro y hy
      rcases List.mem_map.mp hy with ⟨w, hw, hwy⟩
      subst hwy
      have hw' := List.of_mem_filter hw
      rw [Bool.not_eq_eq_eq_not, Bool.not_true, decide_eq_false_iff_not] at hw'
      rw [Classical.not_and_iff_or_not_not] at hw'
      rcases hw' with h | h
      · rw [Classical.not_not] at h
        exact List.mem_append_left _ h
      · rw [Classical.not_not] at h
        rw [h]
        exact List.mem_append_right _ (List.mem_singleton_self _)
  simp only [List.length_map, List.length_append, List.length_singleton] at hrejected
  omega

/-- Every question emitted by the per-question merge body satisfies the
distractor invariant. -/
theorem mergeQuestion_inv (used : List String) (question_id : Int) (q : QuizQuestion) :
    InvQ (mergeQuestion used question_id q).1 := by
  have hf := filterWrongGo_inv q.meaning q.wrong_meanings [] used List.Pairwise.nil
    (by intro x hx; simp at hx) (by intro x hx; simp at hx)
  unfold mergeQuestion InvQ
  by_cases hlt : (filterWrongGo q.meaning [] used q.wrong_meanings).1.length < 3
  · simp only [if_pos hlt]
    have hb := backfillGo_inv q.meaning common_wrong_options _ _ hf.1 hf.2.1 hf.2.2
    exact ⟨hb.1, hb.2.2⟩
  · simp only [if_neg hlt]
    exact ⟨hf.1, hf.2.2⟩

/-- Every question emitted by the inner merge loop satisfies the invariant. -/
theorem mergeQuestions_inv (l : List QuizQuestion) :
    ∀ used question_id, ∀ q ∈ (mergeQuestions used question_id l).1, InvQ q := by
  induction l with
  | nil =>
    intro used question_id q hq
    simp [mergeQuestions] at hq
  | cons x rest ih =>
    intro used question_id q hq
    simp only [mergeQuestions, List.mem_cons] at hq
    rcases hq with h | h
    · subst h; exact mergeQuestion_inv used question_id x
    · exact ih _ _ q h

/-- Every question emitted by the outer merge loop satisfies the invariant. -/
theorem mergeQuizzes_inv (quizzes : List QuizData) :
    ∀ used question_id, ∀ q ∈ (mergeQuizzes used question_id quizzes).1, InvQ q := by
  induction quizzes with
  | nil =>
    intro used question_id q hq
    simp [mergeQuizzes] at hq
  | cons qz rest ih =>
    intro used question_id q hq
    simp only [mergeQuizzes, List.mem_append] at hq
    rcases hq with h | h
    · exact mergeQuestions_inv qz.questions _ _ q h
    · exact ih _ _ q h

/-- `finalCheck` keeps the distractor invariant. -/
theorem finalCheck_inv (q : QuizQuestion) (h : InvQ q) : InvQ (finalCheck q) := by
  unfold finalCheck
  by_cases hc : q.type = "chinese_to_pinyin_meaning" ∧ q.wrong_meanings.length < 3
  · simp only [if_pos hc]
    have hb := finalBackfillGo_inv q.meaning generic_wrong q.wrong_meanings h.1 h.2
    exact ⟨hb.1, hb.2⟩
  · simp only [if_neg hc]
    exact h

/-- After `finalCheck`, every `chinese_to_pinyin_meaning` question has at
least 3 distractors. -/
theorem finalCheck_length (q : QuizQuestion) (h : InvQ q)
    (ht : q.type = "chinese_to_pinyin_meaning") :
    3 ≤ (finalCheck q).wrong_meanings.length := by
  unfold finalCheck
  by_cases hlt : q.wrong_meanings.length < 3
  · have hc : q.type = "chinese_to_pinyin_meaning" ∧ q.wrong_meanings.length < 3 := ⟨ht, hlt⟩
    simp only [if_pos hc]
    apply finalBackfillGo_length q.meaning generic_wrong q.wrong_meanings (by decide) h.1 h.2
    exact generic_filter_bound q.meaning q.wrong_meanings
  · have hc : ¬(q.type = "chinese_to_pinyin_meaning" ∧ q.wrong_meanings.length < 3) := by
      intro hcc; exact hlt hcc.2
    simp only [if_neg hc]
    omega

/-- `finalCheck` only touches `wrong_meanings`. -/
theorem finalCheck_core (q : QuizQuestion) :
    coreFields (finalCheck q) = coreFields q ∧ (finalCheck q).id = q.id
      ∧ (finalCheck q).type = q.type ∧ (finalCheck q).meaning = q.meaning := by
  unfold finalCheck
  by_cases hc : q.type = "chinese_to_pinyin_meaning" ∧ q.wrong_meanings.length < 3
  · simp only [if_pos hc]
    exact ⟨rfl, by simp, by simp, by simp⟩
  · simp only [if_neg hc]
    exact ⟨by simp, by simp, by simp, by simp⟩

/-! ### The merge keeps questions, in order, with renumbered ids -/

/-- The per-question merge body only rewrites `id` and `wrong_meanings`. -/
theorem mergeQuestion_core (used : List String) (question_id : Int) (q : QuizQuestion) :
    coreFields (mergeQuestion used question_id q).1 = coreFields q ∧
    (mergeQuestion used question_id q).1.id = question_id := by
  unfold mergeQuestion
  exact ⟨rfl, rfl⟩

/-- `idsFrom` splits over addition. -/
theorem idsFrom_append (a : Nat) :
    ∀ (start : Int) (b : Nat),
      idsFrom start (a + b) = idsFrom start a ++ idsFrom (start + a) b := by
  induction a with
  | zero =>
    intro start b
    simp [idsFrom]
  | succ n ih =>
    intro start b
    have h1 : n + 1 + b = (n + b) + 1 := by omega
    rw [h1]
    show start :: idsFrom (start + 1) (n + b) = (start :: idsFrom (start + 1) n) ++ _
    rw [List.cons_append, ih]
    have h2 : start + 1 + (n : Int) = start + ((n : Int) + 1) := by ring
    rw [h2]
    norm_cast

/-- `idsFrom` has the expected length. -/
theorem idsFrom_length (n : Nat) : ∀ start : Int, (idsFrom start n).length = n := by
  induction n with
  | zero => intro start; rfl
  | succ m ih => intro start; simp [idsFrom, ih]

/-- `idsFrom` elementwise: position `k` holds `start + k`. -/
theorem idsFrom_get (n : Nat) :
    ∀ (start : Int) (k : Nat) (hk : k < n),
      (idsFrom start n).get ⟨k, by rw [idsFrom_length]; omega⟩ = start + k := by
  induction n with
  | zero =>
    intro start k hk
    omega
  | succ m ih =>
    intro start k hk
    cases k with
    | zero => simp [idsFrom]
    | succ j =>
      have hj : j < m := by omega
      have := ih (start + 1) j hj
      simp only [idsFrom, List.get_cons_succ]
      rw [this]
      push_cast
      ring

/-- The inner merge loop keeps the questions (modulo `id`/`wrong_meanings`)
and assigns consecutive ids from `question_id`. -/
theorem mergeQuestions_core (l : List QuizQuestion) :
    ∀ used question_id,
      (mergeQuestions used question_id l).1.map coreFields = l.map coreFields ∧
      (mergeQuestions used question_id l).1.map QuizQuestion.id = idsFrom question_id l.length := by
  induction l with
  | nil =>
    intro used question_id
    exact ⟨rfl, rfl⟩
  | cons q rest ih =>
    intro used question_id
    have hq := mergeQuestion_core used question_id q
    have hr := ih (mergeQuestion used question_id q).2 (question_id + 1)
    constructor
    · simp only [mergeQuestions, List.map_cons]
      rw [hq.1, hr.1]
    · simp only [mergeQuestions, List.map_cons, List.length_cons]
      rw [hq.2, hr.2]
      rfl

/-- The outer merge loop concatenates all sub-quiz question lists in order
(modulo `id`/`wrong_meanings`) and numbers them consecutively. -/
theorem mergeQuizzes_core (quizzes : List QuizData) :
    ∀ used question_id,
      (mergeQuizzes used question_id quizzes).1.map coreFields
        = (quizzes.map QuizData.questions).flatten.map coreFields ∧
      (mergeQuizzes used question_id quizzes).1.map QuizQuestion.id
        = idsFrom question_id (quizzes.map QuizData.questions).flatten.length := by
  induction quizzes with
  | nil =>
    intro used question_id
    exact ⟨rfl, rfl⟩
  | cons qz rest ih =>
    intro used question_id
    have hq := mergeQuestions_core qz.questions used question_id
    have hr := ih (mergeQuestions used question_id qz.questions).2
        (question_id + qz.questions.length)
    constructor
    · simp only [mergeQuizzes, List.map_append, List.map_cons, List.flatten_cons]
      rw [hq.1, hr.1]
    · simp only [mergeQuizzes, List.map_append, List.map_cons, List.flatten_cons,
        List.length_append]
      rw [hq.2, hr.2, idsFrom_append]

/-! ### Assembling `generate_quiz_from_images` -/

/-- Collecting the per-image calls never fails, and yields the per-image
quizzes in original order. -/
theorem runSingleQuizzes_ok (l : List (Except String QuizData)) :
    ∀ start, ∃ rs, runSingleQuizzes start l = .ok rs ∧
      rs.map (fun r => r.1) = perImageFrom start l := by
  induction l with
  | nil => intro start; exact ⟨[], rfl, rfl⟩
  | cons o rest ih =>
    intro start
    obtain ⟨rs, hrs, hmap⟩ := ih (start + 1)
    refine ⟨singleResult o start :: rs, ?_, ?_⟩
    · simp only [runSingleQuizzes, generate_single_quiz_eq, hrs]
      rfl
    · simp only [List.map_cons, perImageFrom, hmap]

/-- `perImageFrom` preserves length. -/
theorem perImageFrom_length (l : List (Except String QuizData)) :
    ∀ start, (perImageFrom start l).length = l.length := by
  induction l with
  | nil => intro start; rfl
  | cons o rest ih => intro start; simp [perImageFrom, ih]

/-- Every per-image quiz is non-empty, given that every successful
extraction outcome was schema-validated (non-empty question list); failed
extractions yield the one-question error quiz. -/
theorem perImageFrom_nonempty (l : List (Except String QuizData))
    (hv : ∀ r ∈ l, ∀ qd, r = Except.ok qd → qd.questions ≠ []) :
    ∀ start, ∀ qz ∈ perImageFrom start l, qz.questions ≠ [] := by
  induction l with
  | nil => intro start qz hqz; simp [perImageFrom] at hqz
  | cons o rest ih =>
    intro start qz hqz
    simp only [perImageFrom, List.mem_cons] at hqz
    rcases hqz with h | h
    · subst h
      cases o with
      | ok qd => exact hv _ (List.mem_cons_self _ _) qd rfl
      | error e => simp [singleResult, errorQuiz]
    · exact ih (fun r hr => hv r (List.mem_cons_of_mem _ hr)) (start + 1) qz h

/-- For a non-empty image list, `generate_quiz_from_images` is exactly the
validated construction of the merged quiz. -/
theorem generate_eq_make (outcomes : List (Except String QuizData)) (hne : outcomes ≠ []) :
    generate_quiz_from_images outcomes =
      (QuizData.make ((mergeQuizzes [] 1 (perImageQuizzes outcomes)).1.map finalCheck)
        (combinedTitle outcomes.length
          ((perImageQuizzes outcomes).map (fun qz => qz.title)))).map some := by
  obtain ⟨rs, hrs, hmap⟩ := runSingleQuizzes_ok outcomes 0
  have hieF : outcomes.isEmpty = false := by
    cases outcomes with
    | nil => exact absurd rfl hne
    | cons o rest => rfl
  have hpiF : (perImageFrom 0 outcomes).isEmpty = false := by
    cases outcomes with
    | nil => exact absurd rfl hne
    | cons o rest => rfl
  unfold generate_quiz_from_images
  rw [hieF]
  simp only [Bool.false_eq_true, if_false, hrs]
  show (do
      let all_quiz_data := rs.map (fun (r : QuizData × Nat × Option String) => r.1)
      if all_quiz_data.isEmpty then Except.ok none
      else
        let merged := mergeQuizzes [] 1 all_quiz_data
        let titles := all_quiz_data.map (fun (qz : QuizData) => qz.title)
        let combined_title := combinedTitle outcomes.length titles
        let final_questions := merged.1.map finalCheck
        match QuizData.make final_questions combined_title with
        | .ok qd => .ok (some qd)
        | .error msg => .error msg) = _
  rw [hmap]
  show (if (perImageFrom 0 outcomes).isEmpty then Except.ok none else _) = _
  rw [hpiF]
  simp only [Bool.false_eq_true, if_false, perImageQuizzes]
  cases hmk : QuizData.make ((mergeQuizzes [] 1 (perImageFrom 0 outcomes)).1.map finalCheck)
      (combinedTitle outcomes.length ((perImageFrom 0 outcomes).map (fun qz => qz.title))) with
  | ok qd => simp [Except.map]
  | error msg => simp [Except.map]

/-- Inverting a successful `QuizData.make`. -/
theorem QuizData.make_ok {qs : List QuizQuestion} {t : String} {qd : QuizData}
    (h : QuizData.make qs t = .ok qd) : qd.questions = qs ∧ qd.title = t := by
  unfold QuizData.make must_have_questions at h
  by_cases hqs : qs = []
  · rw [if_pos hqs] at h
    cases h
  · rw [if_neg hqs] at h
    cases h
    exact ⟨rfl, rfl⟩

/-- `QuizData.make` succeeds on a non-empty question list. -/
theorem QuizData.make_of_ne {qs : List QuizQuestion} (t : String) (h : qs ≠ []) :
    QuizData.make qs t = .ok { questions := qs, title := t } := by
  unfold QuizData.make must_have_questions
  rw [if_neg h]
  rfl

/-- The merged question list of the final quiz (before `finalCheck`) has as
many questions as all sub-quizzes together. -/
theorem mergeQuizzes_length (quizzes : List QuizData) (used : List String)
    (question_id : Int) :
    (mergeQuizzes used question_id quizzes).1.length
      = (quizzes.map QuizData.questions).flatten.length := by
  have h := (mergeQuizzes_core quizzes used question_id).1
  have h2 := congrArg List.length h
  rw [List.length_map, List.length_map] at h2
  exact h2

/-- For a non-empty, schema-validated batch the generation returns exactly
the merged quiz. -/
theorem generate_some (outcomes : List (Except String QuizData)) (hne : outcomes ≠ [])
    (hv : ∀ r ∈ outcomes, ∀ qd, r = Except.ok qd → qd.questions ≠ []) :
    generate_quiz_from_images outcomes =
      .ok (some { questions := (mergeQuizzes [] 1 (perImageQuizzes outcomes)).1.map finalCheck,
                  title := combinedTitle outcomes.length
                    ((perImageQuizzes outcomes).map (fun qz => qz.title)) }) := by
  have hnonempty : (mergeQuizzes [] 1 (perImageQuizzes outcomes)).1.map finalCheck ≠ [] := by
    intro hempty
    have hlen := congrArg List.length hempty
    rw [List.length_map, mergeQuizzes_length] at hlen
    cases outcomes with
    | nil => exact hne rfl
    | cons o rest =>
      have hq0 : ((singleResult o 0).1).questions ≠ [] := by
        apply perImageFrom_nonempty (o :: rest) hv 0
        simp [perImageFrom]
      simp only [perImageQuizzes, perImageFrom, List.map_cons, List.flatten_cons,
        List.length_append, List.length_nil] at hlen
      rcases List.eq_nil_or_concat ((singleResult o 0).1).questions with h | ⟨l, a, h⟩
      · exact hq0 h
      · rw [h] at hlen
        simp at hlen
  rw [generate_eq_make outcomes hne, QuizData.make_of_ne _ hnonempty]
  rfl

/-- `idsFrom` holds `start + k` at every position `k`. -/
theorem idsFrom_getElem (n : Nat) :
    ∀ (start : Int) (k : Nat), k < n → (idsFrom start n)[k]? = some (start + k) := by
  induction n with
  | zero => intro start k hk; omega
  | succ m ih =>
    intro start k hk
    cases k with
    | zero => simp [idsFrom]
    | succ j =>
      have hj := ih (start + 1) j (by omega)
      show (idsFrom start (m + 1))[j + 1]? = _
      simp only [idsFrom, List.getElem?_cons_succ]
      rw [hj]
      congr 1
      push_cast
      ring

/-- Inversion: a quiz returned by `generate_quiz_from_images` is the merged,
final-checked question list. -/
theorem generate_ok_some_inv (outcomes : List (Except String QuizData)) (qd : QuizData)
    (hq : generate_quiz_from_images outcomes = .ok (some qd)) :
    qd.questions = (mergeQuizzes [] 1 (perImageQuizzes outcomes)).1.map finalCheck := by
  cases outcomes with
  | nil => simp [generate_quiz_from_images] at hq
  | cons o rest =>
    have hne : (o :: rest : List (Except String QuizData)) ≠ [] := by simp
    rw [generate_eq_make (o :: rest) hne] at hq
    cases hmk : QuizData.make ((mergeQuizzes [] 1 (perImageQuizzes (o :: rest))).1.map finalCheck)
        (combinedTitle (o :: rest).length
          ((perImageQuizzes (o :: rest)).map (fun qz => qz.title))) with
    | ok qd' =>
      rw [hmk] at hq
      simp only [Except.map, Except.ok.injEq, Option.some.injEq] at hq
      subst hq
      exact (QuizData.make_ok hmk).1
    | error msg =>
      rw [hmk] at hq
      simp [Except.map] at hq

/-! ### Claim theorems: merge (C1, C2, C4) -/

/-- **C1.** For every non-empty list of N input images (modelled by their
per-image extraction outcomes, each successful outcome schema-validated and
hence non-empty), `generate_quiz_from_images` returns a combined `QuizData`
whose questions are the concatenation of the per-image sub-quizzes' question
lists in original image order — every question agrees with its source on all
fields except the renumbered `id` and the merge-deduplicated
`wrong_meanings` — with ids `1..total_count`, contiguous and ascending. -/
theorem claim_C1_merge_order_and_ids (outcomes : List (Except String QuizData))
    (hne : outcomes ≠ [])
    (hv : ∀ r ∈ outcomes, ∀ qd, r = Except.ok qd → qd.questions ≠ []) :
    ∃ qd, generate_quiz_from_images outcomes = .ok (some qd) ∧
      qd.questions.map coreFields
        = ((perImageQuizzes outcomes).map QuizData.questions).flatten.map coreFields ∧
      qd.questions.length
        = ((perImageQuizzes outcomes).map QuizData.questions).flatten.length ∧
      ∀ k : Nat, k < qd.questions.length →
        (qd.questions.map QuizQuestion.id)[k]? = some ((k : Int) + 1) := by
  have hlen : ((mergeQuizzes [] 1 (perImageQuizzes outcomes)).1.map finalCheck).length
      = ((perImageQuizzes outcomes).map QuizData.questions).flatten.length := by
    rw [List.length_map, mergeQuizzes_length]
  refine ⟨_, generate_some outcomes hne hv, ?_, ?_, ?_⟩
  · show ((mergeQuizzes [] 1 (perImageQuizzes outcomes)).1.map finalCheck).map coreFields = _
    rw [List.map_map]
    have hcg : List.map (coreFields ∘ finalCheck) (mergeQuizzes [] 1 (perImageQuizzes outcomes)).1
        = List.map coreFields (mergeQuizzes [] 1 (perImageQuizzes outcomes)).1 :=
      List.map_congr_left (fun q _ => (finalCheck_core q).1)
    rw [hcg]
    exact (mergeQuizzes_core (perImageQuizzes outcomes) [] 1).1
  · exact hlen
  · intro k hk
    have hk2 : k < ((mergeQuizzes [] 1 (perImageQuizzes outcomes)).1.map finalCheck).length := hk
    have hids : (((mergeQuizzes [] 1 (perImageQuizzes outcomes)).1.map finalCheck).map
        QuizQuestion.id) = idsFrom 1
          ((perImageQuizzes outcomes).map QuizData.questions).flatten.length := by
      rw [List.map_map]
      have hcg : List.map (QuizQuestion.id ∘ finalCheck)
            (mergeQuizzes [] 1 (perImageQuizzes outcomes)).1
          = List.map QuizQuestion.id (mergeQuizzes [] 1 (perImageQuizzes outcomes)).1 :=
        List.map_congr_left (fun q _ => (finalCheck_core q).2.1)
      rw [hcg]
      exact (mergeQuizzes_core (perImageQuizzes outcomes) [] 1).2
    show (((mergeQuizzes [] 1 (perImageQuizzes outcomes)).1.map finalCheck).map
        QuizQuestion.id)[k]? = some ((k : Int) + 1)
    rw [hids, idsFrom_getElem]
    · rw [add_comm]
    · rw [← hlen]
      exact hk2

/-- **C2.** In any quiz returned by `generate_quiz_from_images`, every
question of type `chinese_to_pinyin_meaning` has at least 3 wrong meanings,
none case-insensitively equal to the correct meaning, and no two
case-insensitively equal to each other. -/
theorem claim_C2_distractor_invariant (outcomes : List (Except String QuizData))
    (qd : QuizData) (hq : generate_quiz_from_images outcomes = .ok (some qd)) :
    ∀ q ∈ qd.questions, q.type = "chinese_to_pinyin_meaning" →
      3 ≤ q.wrong_meanings.length ∧
      (∀ m ∈ q.wrong_meanings, pyLower m ≠ pyLower q.meaning) ∧
      q.wrong_meanings.Pairwise lowNe := by
  intro q hqmem htype
  rw [generate_ok_some_inv outcomes qd hq] at hqmem
  obtain ⟨q', hq'mem, hq'eq⟩ := List.mem_map.mp hqmem
  have hinv' : InvQ q' := mergeQuizzes_inv (perImageQuizzes outcomes) [] 1 q' hq'mem
  have hinv : InvQ q := hq'eq ▸ finalCheck_inv q' hinv'
  have htype' : q'.type = "chinese_to_pinyin_meaning" := by
    rw [← (finalCheck_core q').2.2.1, hq'eq, htype]
  refine ⟨?_, hinv.2, hinv.1⟩
  rw [← hq'eq]
  exact finalCheck_length q' hinv' htype'

/-- **C4.** `generate_quiz_from_images` returns `None` if and only if the
input image list is empty; for every non-empty input (with schema-validated
successful outcomes) it returns a quiz — per-image failures degrade to error
questions rather than producing `None`. -/
theorem claim_C4_none_iff_empty (outcomes : List (Except String QuizData))
    (hv : ∀ r ∈ outcomes, ∀ qd, r = Except.ok qd → qd.questions ≠ []) :
    (generate_quiz_from_images outcomes = .ok none ↔ outcomes = []) ∧
    (outcomes ≠ [] → ∃ qd, generate_quiz_from_images outcomes = .ok (some qd)) := by
  constructor
  · constructor
    · intro h
      by_contra hne
      rw [generate_some outcomes hne hv] at h
      cases h
    · intro h
      subst h
      rfl
  · intro hne
    exact ⟨_, generate_some outcomes hne hv⟩

/-! ### Claim theorems: single-image failure (C3) -/

/-- **C3 (counterexample).** Generating over one image whose extraction
throws (`"boom"`) yields a quiz whose single question has `type = "error"`
but whose `wrong_meanings` is NOT empty: the merge's common-options backfill
(src/app.py lines 294-313) runs for every question regardless of type, so
the error question ends up with the first three fallback distractors. -/
theorem claim_C3_counterexample :
    (generate_quiz_from_images [Except.error "boom"]).map
        (Option.map (fun qd => qd.questions.map (fun q => (q.type, q.wrong_meanings))))
      = .ok (some [("error", ["học sinh", "giáo viên", "bạn bè"])]) ∧
    ¬ ((generate_quiz_from_images [Except.error "boom"]).map
        (Option.map (fun qd => qd.questions.map (fun q => q.wrong_meanings)))
      = .ok (some [[]])) := by
  constructor
  · rfl
  · intro h
    have hval : (generate_quiz_from_images [Except.error "boom"]).map
        (Option.map (fun qd => qd.questions.map (fun q => q.wrong_meanings)))
      = .ok (some [["học sinh", "giáo viên", "bạn bè"]]) := rfl
    rw [hval] at h
    simp at h

/-- **C3 (amended).** When the extraction call for an image throws any
exception `e`, `generate_single_quiz` returns (instead of propagating) a
placeholder quiz with exactly one question of type `"error"` whose text
carries the stringified reason and whose `wrong_meanings` is empty; the quiz
produced by generating over that one image has exactly one question of type
`"error"`, but its `wrong_meanings` is backfilled by the merge to the first
three common fallback distractors (`học sinh`, `giáo viên`, `bạn bè`)
rather than left empty. -/
theorem claim_C3_error_placeholder_amended (e : String) (image_index : Nat) :
    generate_single_quiz (Except.error e) image_index
      = .ok (errorQuiz e image_index, image_index, some e) ∧
    (errorQuiz e image_index).questions.map (fun q => q.type) = ["error"] ∧
    (errorQuiz e image_index).questions.map (fun q => q.question)
      = [pyStrip ("Lỗi khi tạo quiz từ ảnh " ++ toString (image_index + 1) ++ ": " ++ e)] ∧
    (errorQuiz e image_index).questions.map (fun q => q.wrong_meanings) = [[]] ∧
    generate_quiz_from_images [Except.error e] =
      .ok (some { questions := [{ errorQuestion e 0 with
                                  id := 1,
                                  wrong_meanings := ["học sinh", "giáo viên", "bạn bè"] }],
                  title := "Quiz tổng hợp từ 1 ảnh: Lỗi - Ảnh 1" }) := by
  refine ⟨generate_single_quiz_eq _ _, rfl, rfl, rfl, ?_⟩
  have hne : ([Except.error e] : List (Except String QuizData)) ≠ [] := by simp
  have hv : ∀ r ∈ ([Except.error e] : List (Except String QuizData)),
      ∀ qd, r = Except.ok qd → qd.questions ≠ [] := by
    intro r hr qd hqd
    rw [List.mem_singleton] at hr
    subst hr
    cases hqd
  rw [generate_some _ hne hv]
  have h1 : (mergeQuizzes [] 1 (perImageQuizzes [Except.error e])).1.map finalCheck
      = [{ errorQuestion e 0 with
           id := 1, wrong_meanings := ["học sinh", "giáo viên", "bạn bè"] }] := rfl
  have h2 : combinedTitle [(Except.error e : Except String QuizData)].length
      ((perImageQuizzes [Except.error e]).map (fun qz => qz.title))
      = "Quiz tổng hợp từ 1 ảnh: Lỗi - Ảnh 1" := by
    show combinedTitle 1 ((perImageQuizzes [Except.error e]).map (fun qz => qz.title)) = _
    rw [show (perImageQuizzes [Except.error e]).map (fun qz => qz.title)
        = ["Lỗi - Ảnh " ++ toString (0 + 1)] from rfl]
    rfl
  rw [h1, h2]

/-! ### Claim theorems: validators, navigation, scoring, checking (C5-C10) -/

theorem except_bind_ok {α β γ : Type} (a : β) (f : β → Except α γ) :
    (Except.ok a >>= f) = f a := rfl

theorem except_bind_error {α β γ : Type} (msg : α) (f : β → Except α γ) :
    (Except.error msg >>= f) = Except.error msg := rfl

/-- **C5.** Constructing a `QuizData` fails whenever the question list is
empty (so every constructed quiz has at least one question), and
constructing a `QuizQuestion` fails whenever `question`, `chinese_word`,
`pinyin` or `meaning` is empty or whitespace-only. -/
theorem claim_C5_construction_validation :
    (∀ q : QuizQuestion,
      (pyStrip q.question = "" ∨ pyStrip q.chinese_word = "" ∨ pyStrip q.pinyin = ""
        ∨ pyStrip q.meaning = "") → ∃ msg, QuizQuestion.validate q = .error msg) ∧
    (∀ t : String, QuizData.make [] t = .error "Quiz must have at least one question") ∧
    (∀ (qs : List QuizQuestion) (t : String) (qd : QuizData),
      QuizData.make qs t = .ok qd → 1 ≤ qd.questions.length) := by
  refine ⟨?_, ?_, ?_⟩
  · intro q h
    by_cases h1 : pyStrip q.question = ""
    · refine ⟨"Question text cannot be empty", ?_⟩
      simp [QuizQuestion.validate, question_must_not_be_empty, h1, except_bind_error]
    · by_cases h2 : pyStrip q.chinese_word = ""
      · refine ⟨"Chinese word cannot be empty", ?_⟩
        simp [QuizQuestion.validate, question_must_not_be_empty,
          chinese_word_must_not_be_empty, h1, h2, except_bind_ok, except_bind_error]
      · by_cases h3 : pyStrip q.pinyin = ""
        · refine ⟨"Pinyin cannot be empty", ?_⟩
          simp [QuizQuestion.validate, question_must_not_be_empty,
            chinese_word_must_not_be_empty, pinyin_must_not_be_empty, h1, h2, h3,
            except_bind_ok, except_bind_error]
        · have h4 : pyStrip q.meaning = "" := by tauto
          refine ⟨"Meaning cannot be empty", ?_⟩
          simp [QuizQuestion.validate, question_must_not_be_empty,
            chinese_word_must_not_be_empty, pinyin_must_not_be_empty,
            meaning_must_not_be_empty, h1, h2, h3, h4, except_bind_ok, except_bind_error]
  · intro t
    rfl
  · intro qs t qd h
    by_cases hqs : qs = []
    · subst hqs
      cases h
    · rw [(QuizData.make_ok h).1]
      exact List.length_pos.mpr hqs

/-- **C6.** A question contributes to the score at most once: the first
correct check adds its index to the answered set and increments the score
by one; any later check of an already-answered question leaves the score
unchanged. -/
theorem claim_C6_score_at_most_once (s : SessionState) (idx : Nat)
    (h : idx ∉ s.answered_questions) :
    ((updateScore s idx true).score = s.score + 1 ∧
     idx ∈ (updateScore s idx true).answered_questions) ∧
    (∀ (s' : SessionState) (b : Bool), idx ∈ s'.answered_questions →
      (updateScore s' idx b).score = s'.score) := by
  constructor
  · rw [updateScore, if_pos ⟨rfl, h⟩]
    exact ⟨rfl, List.mem_cons_self _ _⟩
  · intro s' b hmem
    rw [updateScore, if_neg (fun hc => hc.2 hmem)]

/-- **C7.** A dialogue-arrangement question is marked correct iff the
user-built index sequence is elementwise equal to the stored
`correct_order`; any deviation is marked incorrect. -/
theorem claim_C7_dialogue_exact_match (question : QuizQuestion) (user_order : List Int) :
    check_dialogue_arrangement question user_order = true ↔
      user_order = question.correct_order := by
  simp [check_dialogue_arrangement]

/-- **C8.** A reading-comprehension question is fully correct iff every
user sub-answer matches the corresponding stored sub-answer (under `zip`);
a single mismatch makes the aggregate false while per-subquestion results
are still reported. -/
theorem claim_C8_reading_all_or_nothing (question : QuizQuestion)
    (user_answers : List String) :
    ((check_reading_comprehension question user_answers).2 = true ↔
      ∀ p ∈ user_answers.zip question.subanswers, p.1 = p.2) ∧
    (check_reading_comprehension question user_answers).1
      = (user_answers.zip question.subanswers).map (fun p => p.1 == p.2) ∧
    ((check_reading_comprehension question user_answers).2 = true ↔
      ∀ r ∈ (check_reading_comprehension question user_answers).1, r = true) := by
  refine ⟨?_, rfl, ?_⟩
  · simp [check_reading_comprehension, List.all_eq_true]
  · simp [check_reading_comprehension, List.all_eq_true]

/-- **C9.** `get_question` returns the question at position `index` for
`0 ≤ index < len(questions)` and `none` for every out-of-range index
(negative included): no exception, no Python wraparound. -/
theorem claim_C9_get_question_bounds (quiz : QuizData) (index : Int) :
    (0 ≤ index → index < (quiz.questions.length : Int) →
      quiz.get_question index = quiz.questions[index.toNat]? ∧
      (quiz.get_question index).isSome = true) ∧
    ((index < 0 ∨ (quiz.questions.length : Int) ≤ index) →
      quiz.get_question index = none) := by
  constructor
  · intro h0 h1
    have hlt : index.toNat < quiz.questions.length := by omega
    unfold QuizData.get_question
    rw [dif_pos ⟨h0, h1⟩]
    constructor
    · rw [List.getElem?_eq_getElem hlt]
      rfl
    · rfl
  · intro h
    unfold QuizData.get_question
    rw [dif_neg]
    intro hc
    omega

/-- The cleaning loop of `validate_wrong_meanings`: entries stay pairwise
case-insensitively distinct and non-empty, and the new entries form a
subsequence of the stripped input (first occurrences kept, order
preserved). -/
theorem vwmGo_spec (l : List String) :
    ∀ cleaned seen,
      cleaned.Pairwise lowNe →
      (∀ x ∈ cleaned, pyLower x ∈ seen) →
      (∀ x ∈ cleaned, x ≠ "") →
      ((vwmGo cleaned seen l).Pairwise lowNe ∧
       (∀ x ∈ vwmGo cleaned seen l, x ≠ "") ∧
       ∃ tail, vwmGo cleaned seen l = cleaned ++ tail ∧
         List.Sublist tail (l.map pyStrip)) := by
  induction l with
  | nil =>
    intro cleaned seen h1 _ h3
    exact ⟨h1, h3, [], by simp [vwmGo], List.Sublist.refl _⟩
  | cons m rest ih =>
    intro cleaned seen h1 h2 h3
    by_cases hc : pyStrip m ≠ "" ∧ pyLower (pyStrip m) ∉ seen
    · have heq : vwmGo cleaned seen (m :: rest)
          = vwmGo (cleaned ++ [pyStrip m]) (pyLower (pyStrip m) :: seen) rest := by
        simp only [vwmGo, if_pos hc]
      rw [heq]
      have h1' : (cleaned ++ [pyStrip m]).Pairwise lowNe := by
        rw [List.pairwise_append]
        refine ⟨h1, List.pairwise_singleton _ _, ?_⟩
        intro a ha b hb
        rw [List.mem_singleton] at hb
        subst hb
        intro hab
        exact hc.2 (hab ▸ h2 a ha)
      have h2' : ∀ x ∈ cleaned ++ [pyStrip m],
          pyLower x ∈ pyLower (pyStrip m) :: seen := by
        intro x hx
        rcases List.mem_append.mp hx with hxx | hxx
        · exact List.mem_cons_of_mem _ (h2 x hxx)
        · rw [List.mem_singleton] at hxx; subst hxx; exact List.mem_cons_self _ _
      have h3' : ∀ x ∈ cleaned ++ [pyStrip m], x ≠ "" := by
        intro x hx
        rcases List.mem_append.mp hx with hxx | hxx
        · exact h3 x hxx
        · rw [List.mem_singleton] at hxx; subst hxx; exact hc.1
      obtain ⟨hp, hne, tail, htail, hsub⟩ := ih _ _ h1' h2' h3'
      refine ⟨hp, hne, pyStrip m :: tail, ?_, ?_⟩
      · rw [htail, List.append_assoc]
        rfl
      · exact List.Sublist.cons₂ _ hsub
    · have heq : vwmGo cleaned seen (m :: rest) = vwmGo cleaned seen rest := by
        simp only [vwmGo, if_neg hc]
      rw [heq]
      obtain ⟨hp, hne, tail, htail, hsub⟩ := ih _ _ h1 h2 h3
      exact ⟨hp, hne, tail, htail, List.Sublist.cons _ hsub⟩

/-- **C10.** The `wrong_meanings` field validator produces a list whose
entries are whitespace-stripped and non-empty, pairwise case-insensitively
distinct, and in first-occurrence order of the (stripped) input. -/
theorem claim_C10_validate_wrong_meanings (v : List String) :
    List.Sublist (validate_wrong_meanings v) (v.map pyStrip) ∧
    (∀ x ∈ validate_wrong_meanings v, x ≠ "") ∧
    (validate_wrong_meanings v).Pairwise lowNe := by
  obtain ⟨hp, hne, tail, htail, hsub⟩ :=
    vwmGo_spec v [] [] List.Pairwise.nil (by intro x hx; cases hx) (by intro x hx; cases hx)
  refine ⟨?_, hne, hp⟩
  show List.Sublist (vwmGo [] [] v) (v.map pyStrip)
  rw [htail]
  simpa using hsub

/-! ### Witnesses -/

/-- The sample generation run, evaluated. -/
theorem sample_generate_eq :
    generate_quiz_from_images [Except.ok sampleQuiz] = .ok (some sampleMerged) := by
  have hv : ∀ r ∈ [(Except.ok sampleQuiz : Except String QuizData)],
      ∀ qd, r = Except.ok qd → qd.questions ≠ [] := by
    intro r hr qd hqd
    rw [List.mem_singleton] at hr
    subst hr
    cases hqd
    simp [sampleQuiz]
  rw [generate_some _ (by simp) hv]
  rfl

theorem claim_C1_witness :
    generate_quiz_from_images [Except.ok sampleQuiz] = .ok (some sampleMerged) ∧
    sampleMerged.questions.map coreFields
      = ((perImageQuizzes [Except.ok sampleQuiz]).map QuizData.questions).flatten.map coreFields ∧
    sampleMerged.questions.length
      = ((perImageQuizzes [Except.ok sampleQuiz]).map QuizData.questions).flatten.length ∧
    (sampleMerged.questions.map QuizQuestion.id)[0]? = some 1 := by
  have hv : ∀ r ∈ [(Except.ok sampleQuiz : Except String QuizData)],
      ∀ qd, r = Except.ok qd → qd.questions ≠ [] := by
    intro r hr qd hqd
    rw [List.mem_singleton] at hr
    subst hr
    cases hqd
    simp [sampleQuiz]
  obtain ⟨qd, hgen, hcore, hlen, hids⟩ :=
    claim_C1_merge_order_and_ids [Except.ok sampleQuiz] (by simp) hv
  have hqd : qd = sampleMerged := by
    rw [sample_generate_eq] at hgen
    injection hgen with h1
    injection h1 with h2
    exact h2.symm
  subst hqd
  exact ⟨sample_generate_eq, hcore, hlen, hids 0 (by simp [sampleMerged])⟩

theorem claim_C2_witness :
    3 ≤ sampleMergedQuestion.wrong_meanings.length ∧
    (∀ m ∈ sampleMergedQuestion.wrong_meanings,
      pyLower m ≠ pyLower sampleMergedQuestion.meaning) ∧
    sampleMergedQuestion.wrong_meanings.Pairwise lowNe :=
  claim_C2_distractor_invariant [Except.ok sampleQuiz] sampleMerged sample_generate_eq
    sampleMergedQuestion (by simp [sampleMerged]) rfl

theorem claim_C4_witness :
    generate_quiz_from_images [] = .ok none ∧
    generate_quiz_from_images [Except.ok sampleQuiz] ≠ .ok none := by
  have hv : ∀ r ∈ [(Except.ok sampleQuiz : Except String QuizData)],
      ∀ qd, r = Except.ok qd → qd.questions ≠ [] := by
    intro r hr qd hqd
    rw [List.mem_singleton] at hr
    subst hr
    cases hqd
    simp [sampleQuiz]
  constructor
  · exact (claim_C4_none_iff_empty [] (by intro r hr; cases hr)).1.mpr rfl
  · intro h
    have := (claim_C4_none_iff_empty [Except.ok sampleQuiz] hv).1.mp h
    cases this

theorem claim_C5_witness :
    (∃ msg, QuizQuestion.validate badQuestion = .error msg) ∧
    QuizData.make [] "T" = .error "Quiz must have at least one question" ∧
    1 ≤ sampleQuiz.questions.length := by
  refine ⟨claim_C5_construction_validation.1 badQuestion ?_,
    claim_C5_construction_validation.2.1 "T",
    claim_C5_construction_validation.2.2 [sampleQuestion] "T" sampleQuiz ?_⟩
  · right; right; left
    decide
  · rfl

theorem claim_C6_witness :
    (updateScore { score := 0, answered_questions := [] } 0 true).score = 0 + 1 ∧
    0 ∈ (updateScore { score := 0, answered_questions := [] } 0 true).answered_questions ∧
    (updateScore (updateScore { score := 0, answered_questions := [] } 0 true) 0 true).score
      = (updateScore { score := 0, answered_questions := [] } 0 true).score := by
  have h := claim_C6_score_at_most_once { score := 0, answered_questions := [] } 0 (by simp)
  exact ⟨h.1.1, h.1.2, h.2 _ true h.1.2⟩

theorem claim_C9_witness :
    (sampleQuiz.get_question 0 = sampleQuiz.questions[(0 : Int).toNat]? ∧
     (sampleQuiz.get_question 0).isSome = true) ∧
    sampleQuiz.get_question (-1) = none := by
  refine ⟨(claim_C9_get_question_bounds sampleQuiz 0).1 (by norm_num) (by simp [sampleQuiz]),
    (claim_C9_get_question_bounds sampleQuiz (-1)).2 (Or.inl (by norm_num))⟩

theorem claim_C3_witness :
    generate_single_quiz (Except.error "boom") 0 = .ok (errorQuiz "boom" 0, 0, some "boom") ∧
    (errorQuiz "boom" 0).questions.map (fun q => q.type) = ["error"] ∧
    (errorQuiz "boom" 0).questions.map (fun q => q.wrong_meanings) = [[]] := by
  have h := claim_C3_error_placeholder_amended "boom" 0
  exact ⟨h.1, h.2.1, h.2.2.2.1⟩

theorem claim_C7_witness :
    check_dialogue_arrangement sampleQuestion [0, 1] = true ↔
      [0, 1] = sampleQuestion.correct_order :=
  claim_C7_dialogue_exact_match sampleQuestion [0, 1]

theorem claim_C8_witness :
    ((check_reading_comprehension sampleQuestion ["A"]).2 = true ↔
      ∀ p ∈ (["A"] : List String).zip sampleQuestion.subanswers, p.1 = p.2) ∧
    (check_reading_comprehension sampleQuestion ["A"]).1
      = ((["A"] : List String).zip sampleQuestion.subanswers).map (fun p => p.1 == p.2) ∧
    ((check_reading_comprehension sampleQuestion ["A"]).2 = true ↔
      ∀ r ∈ (check_reading_comprehension sampleQuestion ["A"]).1, r = true) :=
  claim_C8_reading_all_or_nothing sampleQuestion ["A"]

theorem claim_C10_witness :
    List.Sublist (validate_wrong_meanings [" Chó ", "chó", "", "Gà"])
      (([" Chó ", "chó", "", "Gà"] : List String).map pyStrip) ∧
    (∀ x ∈ validate_wrong_meanings [" Chó ", "chó", "", "Gà"], x ≠ "") ∧
    (validate_wrong_meanings [" Chó ", "chó", "", "Gà"]).Pairwise lowNe :=
  claim_C10_validate_wrong_meanings [" Chó ", "chó", "", "Gà"]
